import Mathlib

/-!
Verification of the ez-ssg static-site generator's content build pipeline.

The Go source is embedded shallowly: byte slices become `List Char`,
`bufio.Scanner` with the default `ScanLines` split function becomes
`scanLines`, and the stateful scan loop of `readFull` becomes a fold over
the scanned lines.  File-system reads and writes are abstracted away: the
codec functions receive the file content (respectively return the bytes
written) directly.
-/

namespace EzSsg

/-- Bytes are modelled as lists of characters (the repository only ever
handles UTF-8 text). -/
abbrev Bytes := List Char

/-- Frontmatter boundary literal, `FRONTMATTER_BOUNDARY` in the source:
eighteen dashes. -/
def FRONTMATTER_BOUNDARY : Bytes := "------------------".toList

/-- Model of `dropCR` from Go's `bufio` package: drops a single trailing
carriage return from a scanned line. -/
def dropCR (l : Bytes) : Bytes :=
  if l ≠ [] ∧ l.getLast? = some '\r' then l.dropLast else l

/-- Accumulator-based model of repeatedly calling `bufio.Scanner.Scan`
with the `ScanLines` split function: `acc` holds the (reversed) bytes of
the line currently being read. A final line without a terminating newline
is still emitted; input ending in a newline produces no extra empty line. -/
def scanLinesAux : Bytes → Bytes → List Bytes
  | [], acc => if acc = [] then [] else [dropCR acc.reverse]
  | c :: rest, acc =>
    if c = '\n' then dropCR acc.reverse :: scanLinesAux rest []
    else scanLinesAux rest (c :: acc)

/-- All lines produced by a `bufio.Scanner` over the given bytes. -/
def scanLines (s : Bytes) : List Bytes :=
  scanLinesAux s []

/-- Split a byte sequence at every newline; the result always has one more
element than the number of newlines (used to describe line structure of
metadata blocks; unlike `scanLines` it keeps a final empty segment). -/
def splitNl : Bytes → List Bytes
  | [] => [[]]
  | c :: cs =>
    if c = '\n' then [] :: splitNl cs
    else
      match splitNl cs with
      | l :: ls => (c :: l) :: ls
      | [] => [[c]]

/-- State of `readFull`'s scan loop: the boundary counter and the two
`bytes.Buffer` values `bufFrontMatter` and `bufContent`. -/
structure ReadState where
  boundaryCount : Nat
  bufFrontMatter : Bytes
  bufContent : Bytes
deriving DecidableEq, Repr

/-- One iteration of `readFull`'s scan loop over a scanned line `b`
(line terminator already stripped by the scanner):
a boundary line is discarded while the counter is below 2; any other line
goes to the frontmatter buffer while the counter is below 2; afterwards
every line goes to the content buffer followed by a restored newline. -/
def readLine (st : ReadState) (b : Bytes) : ReadState :=
  if b = FRONTMATTER_BOUNDARY ∧ st.boundaryCount < 2 then
    { st with boundaryCount := st.boundaryCount + 1 }
  else if st.boundaryCount < 2 then
    { st with bufFrontMatter := st.bufFrontMatter ++ b }
  else
    { st with bufContent := st.bufContent ++ b ++ ['\n'] }

/-- Scan loop of `readFull` over an explicit list of lines, returning the
final frontmatter and content buffers. -/
def readFullLines (ls : List Bytes) : Bytes × Bytes :=
  ((ls.foldl readLine ⟨0, [], []⟩).bufFrontMatter, (ls.foldl readLine ⟨0, [], []⟩).bufContent)

/-- Model of `readFull` (frontmatter decode): the file content is passed
directly instead of being read from a path; the scanner's line splitting
and the scan loop are exactly those of the source. -/
def readFull (content : Bytes) : Bytes × Bytes :=
  readFullLines (scanLines content)

/-- Model of `addFrontmatter` (frontmatter encode): returns the bytes the
source writes to the file, namely the boundary line, the metadata bytes, a
newline, and the closing boundary line. -/
def addFrontmatter (data : Bytes) : Bytes :=
  FRONTMATTER_BOUNDARY ++ '\n' :: data ++ '\n' :: FRONTMATTER_BOUNDARY ++ ['\n']

/-- Concatenation of body lines with one newline restored after each, as
`readFull`'s content buffer produces. -/
def bodyJoin (ls : List Bytes) : Bytes :=
  (ls.map (fun l => l ++ ['\n'])).flatten

/-- Boolean test for a boundary line. -/
def isBoundary (l : Bytes) : Bool :=
  l = FRONTMATTER_BOUNDARY

theorem splitNl_ne_nil : ∀ xs : Bytes, splitNl xs ≠ []
  | [] => by simp [splitNl]
  | c :: cs => by
    unfold splitNl
    by_cases h : c = '\n'
    · simp [h]
    · simp only [h, if_false, ite_false]
      cases hs : splitNl cs <;> simp

theorem splitNl_no_newline (xs : Bytes) (h : '\n' ∉ xs) : splitNl xs = [xs] := by
  induction xs with
  | nil => rfl
  | cons c cs ih =>
    have hc : c ≠ '\n' := fun hc => h (hc ▸ List.mem_cons_self c cs)
    have hcs : '\n' ∉ cs := fun hm => h (List.mem_cons_of_mem c hm)
    simp only [splitNl, hc, ite_false, ih hcs]

theorem splitNl_append (xs ys : Bytes) :
    splitNl (xs ++ '\n' :: ys) = splitNl xs ++ splitNl ys := by
  induction xs with
  | nil => simp [splitNl]
  | cons c cs ih =>
    by_cases hc : c = '\n'
    · simp [splitNl, hc, ih, List.append_eq]
    · cases hs : splitNl cs with
      | nil => exact absurd hs (splitNl_ne_nil cs)
      | cons l0 ls0 => simp [splitNl, hc, ih, hs, List.append_eq]

theorem splitNl_flatten (xs : Bytes) :
    (splitNl xs).flatten = xs.filter (fun c => c ≠ '\n') := by
  induction xs with
  | nil => simp [splitNl]
  | cons c cs ih =>
    by_cases hc : c = '\n'
    · simp [splitNl, hc, ih]
    · cases hs : splitNl cs with
      | nil => exact absurd hs (splitNl_ne_nil cs)
      | cons l0 ls0 =>
        rw [hs] at ih
        simp only [List.flatten_cons] at ih
        simp [splitNl, hc, hs, List.filter_cons, ih]

theorem dropCR_no_cr (l : Bytes) (h : '\r' ∉ l) : dropCR l = l := by
  unfold dropCR
  by_cases hl : l ≠ [] ∧ l.getLast? = some '\r'
  · exact absurd (List.mem_of_getLast?_eq_some hl.2) h
  · simp [hl]

theorem modifyHead_self (L : List Bytes) : L.modifyHead (fun l => l) = L := by
  cases L <;> simp

theorem scanLinesAux_split (data : Bytes) :
    ∀ acc rest : Bytes, '\r' ∉ data → '\r' ∉ acc →
    scanLinesAux (data ++ '\n' :: rest) acc
      = (splitNl data).modifyHead (fun l => acc.reverse ++ l) ++ scanLinesAux rest [] := by
  induction data with
  | nil =>
    intro acc rest _ hacc
    have hrev : '\r' ∉ acc.reverse := by simpa using hacc
    simp [scanLinesAux, splitNl, dropCR_no_cr _ hrev]
  | cons c cs ih =>
    intro acc rest hd hacc
    have hc : c ≠ '\r' := fun hc => hd (hc ▸ List.mem_cons_self c cs)
    have hcs : '\r' ∉ cs := fun hm => hd (List.mem_cons_of_mem c hm)
    by_cases hn : c = '\n'
    · subst hn
      have hrev : '\r' ∉ acc.reverse := by simpa using hacc
      simp [scanLinesAux, splitNl, dropCR_no_cr _ hrev, ih [] rest hcs (by simp),
        modifyHead_self, List.append_eq]
    · have hacc2 : '\r' ∉ c :: acc := by
        intro hm
        rcases List.mem_cons.mp hm with h1 | h2
        · exact hc h1.symm
        · exact hacc h2
      have hstep : scanLinesAux ((c :: cs) ++ '\n' :: rest) acc
          = scanLinesAux (cs ++ '\n' :: rest) (c :: acc) := by
        simp [scanLinesAux, hn, List.append_eq]
      rw [hstep, ih (c :: acc) rest hcs hacc2]
      cases hs : splitNl cs with
      | nil => exact absurd hs (splitNl_ne_nil cs)
      | cons l0 ls0 =>
        simp [splitNl, hn, hs, List.reverse_cons, List.append_assoc]

theorem foldl_readLine_body (ls : List Bytes) :
    ∀ st : ReadState, 2 ≤ st.boundaryCount →
    ls.foldl readLine st
      = ⟨st.boundaryCount, st.bufFrontMatter, st.bufContent ++ bodyJoin ls⟩ := by
  induction ls with
  | nil => intro st _; simp [bodyJoin]
  | cons l ls ih =>
    intro st hst
    have hc : ¬ st.boundaryCount < 2 := by omega
    have h1 : ¬ (l = FRONTMATTER_BOUNDARY ∧ st.boundaryCount < 2) := fun h => hc h.2
    rw [List.foldl_cons]
    rw [show readLine st l
        = ⟨st.boundaryCount, st.bufFrontMatter, st.bufContent ++ l ++ ['\n']⟩ from by
      simp [readLine, h1, hc]]
    rw [ih ⟨st.boundaryCount, st.bufFrontMatter, st.bufContent ++ l ++ ['\n']⟩ (by simpa using hst)]
    simp [bodyJoin, List.append_assoc]

theorem foldl_readLine_meta (metaLines : List Bytes) :
    ∀ st : ReadState, st.boundaryCount < 2 →
    (∀ l ∈ metaLines, l ≠ FRONTMATTER_BOUNDARY) →
    metaLines.foldl readLine st
      = ⟨st.boundaryCount, st.bufFrontMatter ++ metaLines.flatten, st.bufContent⟩ := by
  induction metaLines with
  | nil => intro st _ _; simp
  | cons l ls ih =>
    intro st hst hm
    have hl : l ≠ FRONTMATTER_BOUNDARY := hm l (List.mem_cons_self l ls)
    rw [List.foldl_cons]
    rw [show readLine st l = ⟨st.boundaryCount, st.bufFrontMatter ++ l, st.bufContent⟩ from by
      simp [readLine, hl, hst]]
    rw [ih ⟨st.boundaryCount, st.bufFrontMatter ++ l, st.bufContent⟩ (by simpa using hst)
      (fun x hx => hm x (List.mem_cons_of_mem l hx))]
    simp [List.append_assoc]

theorem readFullLines_framed (metaLines bodyLines : List Bytes)
    (hm : ∀ l ∈ metaLines, l ≠ FRONTMATTER_BOUNDARY) :
    readFullLines (FRONTMATTER_BOUNDARY :: metaLines ++ FRONTMATTER_BOUNDARY :: bodyLines)
      = (metaLines.flatten, bodyJoin bodyLines) := by
  have e1 : readLine ⟨0, [], []⟩ FRONTMATTER_BOUNDARY = (⟨1, [], []⟩ : ReadState) := by
    simp [readLine]
  have e2 : List.foldl readLine (⟨1, [], []⟩ : ReadState) metaLines
      = (⟨1, metaLines.flatten, []⟩ : ReadState) := by
    rw [foldl_readLine_meta metaLines ⟨1, [], []⟩ (by simp) hm]
    rfl
  have e3 : readLine ⟨1, metaLines.flatten, []⟩ FRONTMATTER_BOUNDARY
      = (⟨2, metaLines.flatten, []⟩ : ReadState) := by
    simp [readLine]
  have e4 : List.foldl readLine (⟨2, metaLines.flatten, []⟩ : ReadState) bodyLines
      = (⟨2, metaLines.flatten, bodyJoin bodyLines⟩ : ReadState) := by
    rw [foldl_readLine_body bodyLines ⟨2, metaLines.flatten, []⟩ (by simp)]
    rfl
  have hinner : List.foldl readLine ⟨0, [], []⟩ (FRONTMATTER_BOUNDARY :: metaLines)
      = (⟨1, metaLines.flatten, []⟩ : ReadState) := by
    rw [List.foldl_cons, e1, e2]
  have houter : List.foldl readLine (⟨1, metaLines.flatten, []⟩ : ReadState)
      (FRONTMATTER_BOUNDARY :: bodyLines)
      = (⟨2, metaLines.flatten, bodyJoin bodyLines⟩ : ReadState) := by
    rw [List.foldl_cons, e3, e4]
  unfold readFullLines
  rw [List.foldl_append, hinner, houter]

theorem foldl_readLine_few (ls : List Bytes) :
    ∀ st : ReadState, st.boundaryCount + ls.countP isBoundary ≤ 1 →
    ls.foldl readLine st
      = ⟨st.boundaryCount + ls.countP isBoundary,
         st.bufFrontMatter ++ (ls.filter (fun l => !(isBoundary l))).flatten,
         st.bufContent⟩ := by
  induction ls with
  | nil => intro st _; simp
  | cons l ls ih =>
    intro st hst
    by_cases hl : l = FRONTMATTER_BOUNDARY
    · have hbl : isBoundary l = true := by simp [isBoundary, hl]
      have hcp : (l :: ls).countP isBoundary = ls.countP isBoundary + 1 := by
        simp [List.countP_cons, hbl]
      rw [hcp] at hst ⊢
      have hcnt : st.boundaryCount < 2 := by omega
      rw [List.foldl_cons]
      rw [show readLine st l = ⟨st.boundaryCount + 1, st.bufFrontMatter, st.bufContent⟩ from by
        simp [readLine, hl, hcnt]]
      rw [ih ⟨st.boundaryCount + 1, st.bufFrontMatter, st.bufContent⟩ (by simp; omega)]
      simp only [List.filter_cons, hbl, Bool.not_true, Bool.false_eq_true, if_false, ite_false,
        ReadState.mk.injEq, eq_self_iff_true, and_true, true_and]
      omega
    · have hbl : isBoundary l = false := by simp [isBoundary, hl]
      have hcp : (l :: ls).countP isBoundary = ls.countP isBoundary := by
        simp [List.countP_cons, hbl]
      rw [hcp] at hst ⊢
      have hcnt : st.boundaryCount < 2 := by omega
      have h1 : ¬ (l = FRONTMATTER_BOUNDARY ∧ st.boundaryCount < 2) := fun h => hl h.1
      rw [List.foldl_cons]
      rw [show readLine st l = ⟨st.boundaryCount, st.bufFrontMatter ++ l, st.bufContent⟩ from by
        simp [readLine, hl, hcnt]]
      rw [ih ⟨st.boundaryCount, st.bufFrontMatter ++ l, st.bufContent⟩ (by simp; omega)]
      simp [List.filter_cons, hbl, List.append_assoc]

/-- C3: an input document with fewer than two lines exactly equal to the
boundary literal never reaches body mode: `readFull` returns an empty body
and every non-boundary line is appended (in order, terminators stripped) to
the metadata buffer. -/
theorem readFull_few_boundaries (content : Bytes)
    (h : (scanLines content).countP isBoundary < 2) :
    readFull content
      = (((scanLines content).filter (fun l => !(isBoundary l))).flatten, []) := by
  unfold readFull readFullLines
  rw [foldl_readLine_few (scanLines content) ⟨0, [], []⟩ (by simp; omega)]
  rfl

/-- Witness for C3 at the two-line document `hello\nworld\n`. -/
theorem readFull_few_boundaries_witness :
    (scanLines ("hello\nworld\n".toList)).countP isBoundary < 2 ∧
    readFull ("hello\nworld\n".toList)
      = ((((scanLines ("hello\nworld\n".toList)).filter (fun l => !(isBoundary l))).flatten), []) :=
  ⟨by decide, readFull_few_boundaries _ (by decide)⟩

/-- Decomposition of a boundary-framed document into scanner lines: the
two boundary lines, the metadata lines between them, and the lines of the
remainder. -/
theorem scanLines_framed (meta rest : Bytes)
    (hcr : '\r' ∉ meta) :
    scanLines (FRONTMATTER_BOUNDARY ++ '\n' :: meta ++ '\n' :: FRONTMATTER_BOUNDARY ++ '\n' :: rest)
      = FRONTMATTER_BOUNDARY :: splitNl meta ++ FRONTMATTER_BOUNDARY :: scanLines rest := by
  have hdoc : (FRONTMATTER_BOUNDARY ++ '\n' :: meta ++ '\n' :: FRONTMATTER_BOUNDARY ++ '\n' :: rest)
      = FRONTMATTER_BOUNDARY ++ '\n' :: (meta ++ '\n' :: (FRONTMATTER_BOUNDARY ++ '\n' :: rest)) := by
    simp [List.append_assoc]
  unfold scanLines
  rw [hdoc]
  rw [scanLinesAux_split FRONTMATTER_BOUNDARY [] _ (by decide) (by simp)]
  rw [scanLinesAux_split meta [] _ hcr (by simp)]
  rw [scanLinesAux_split FRONTMATTER_BOUNDARY [] _ (by decide) (by simp)]
  simp [splitNl_no_newline FRONTMATTER_BOUNDARY (by decide), modifyHead_self]

/-- Decoding a boundary-framed document: the metadata buffer is the
metadata bytes with all newlines removed, and the body is the remainder's
lines each with one newline restored. -/
theorem readFull_framed (meta rest : Bytes)
    (hcr : '\r' ∉ meta)
    (hb : ∀ l ∈ splitNl meta, l ≠ FRONTMATTER_BOUNDARY) :
    readFull (FRONTMATTER_BOUNDARY ++ '\n' :: meta ++ '\n' :: FRONTMATTER_BOUNDARY ++ '\n' :: rest)
      = (meta.filter (fun c => c ≠ '\n'), bodyJoin (scanLines rest)) := by
  unfold readFull
  rw [scanLines_framed meta rest hcr]
  rw [readFullLines_framed (splitNl meta) (scanLines rest) hb, splitNl_flatten]

/-- C10: during decode each metadata line is appended with its terminator
stripped and no separator re-inserted, so a multi-line frontmatter block
comes back as the concatenation of its lines: the metadata buffer equals
the original frontmatter bytes with every newline removed, which is lossy
whenever the frontmatter contains a newline; only body lines get a newline
restored. -/
theorem readFull_meta_newlines_stripped (meta rest : Bytes)
    (hcr : '\r' ∉ meta)
    (hb : ∀ l ∈ splitNl meta, l ≠ FRONTMATTER_BOUNDARY) :
    readFull (FRONTMATTER_BOUNDARY ++ '\n' :: meta ++ '\n' :: FRONTMATTER_BOUNDARY ++ '\n' :: rest)
      = (meta.filter (fun c => c ≠ '\n'), bodyJoin (scanLines rest)) ∧
    ('\n' ∈ meta →
      (readFull (FRONTMATTER_BOUNDARY ++ '\n' :: meta ++ '\n' :: FRONTMATTER_BOUNDARY ++ '\n' :: rest)).1
        ≠ meta) := by
  have hmain := readFull_framed meta rest hcr hb
  refine ⟨hmain, fun hn heq => ?_⟩
  rw [hmain] at heq
  dsimp only at heq
  rw [← heq] at hn
  simp at hn

/-- Witness for C10 at the two-line frontmatter `a\nb` with body `body`. -/
theorem readFull_meta_newlines_stripped_witness :
    ('\r' ∉ ("a\nb".toList) ∧ (∀ l ∈ splitNl ("a\nb".toList), l ≠ FRONTMATTER_BOUNDARY)
      ∧ '\n' ∈ ("a\nb".toList)) ∧
    (readFull (FRONTMATTER_BOUNDARY ++ '\n' :: ("a\nb".toList)
        ++ '\n' :: FRONTMATTER_BOUNDARY ++ '\n' :: ("body".toList))
      = (("a\nb".toList).filter (fun c => c ≠ '\n'), bodyJoin (scanLines ("body".toList))) ∧
     ('\n' ∈ ("a\nb".toList) →
      (readFull (FRONTMATTER_BOUNDARY ++ '\n' :: ("a\nb".toList)
          ++ '\n' :: FRONTMATTER_BOUNDARY ++ '\n' :: ("body".toList))).1 ≠ ("a\nb".toList))) :=
  ⟨⟨by decide, by decide, by decide⟩,
    readFull_meta_newlines_stripped ("a\nb".toList) ("body".toList) (by decide) (by decide)⟩

/-- C2: round-trip of the frontmatter codec: encoding metadata bytes with
`addFrontmatter` and decoding with `readFull` yields a metadata buffer
equal to the original bytes up to removal of newlines, so any decoder
insensitive to newline whitespace (as JSON unmarshalling is) recovers the
original object `M`. -/
theorem addFrontmatter_readFull_roundtrip {α : Type} (data : Bytes) (M : α)
    (unmarshal : Bytes → Option α)
    (hcr : '\r' ∉ data)
    (hb : ∀ l ∈ splitNl data, l ≠ FRONTMATTER_BOUNDARY)
    (hws : ∀ s : Bytes, unmarshal (s.filter (fun c => c ≠ '\n')) = unmarshal s)
    (hM : unmarshal data = some M) :
    readFull (addFrontmatter data) = (data.filter (fun c => c ≠ '\n'), []) ∧
    unmarshal (readFull (addFrontmatter data)).1 = some M := by
  have h0 : addFrontmatter data
      = FRONTMATTER_BOUNDARY ++ '\n' :: data ++ '\n' :: FRONTMATTER_BOUNDARY ++ '\n' :: ([] : Bytes) := by
    simp [addFrontmatter]
  have h1 : readFull (addFrontmatter data) = (data.filter (fun c => c ≠ '\n'), []) := by
    rw [h0, readFull_framed data [] hcr hb]
    simp [scanLines, scanLinesAux, bodyJoin]
  refine ⟨h1, ?_⟩
  rw [h1]
  dsimp only
  rw [hws data, hM]

/-- Concrete metadata bytes for the round-trip witness. -/
def c2Data : Bytes := "\x7b\"a\":1\x7d".toList

/-- Concrete newline-insensitive decoder for the round-trip witness. -/
def c2Unmarshal : Bytes → Option Bytes :=
  fun s => some (s.filter (fun c => c ≠ '\n'))

/-- Witness for C2 at a concrete one-line JSON object. -/
theorem addFrontmatter_readFull_roundtrip_witness :
    ('\r' ∉ c2Data ∧ (∀ l ∈ splitNl c2Data, l ≠ FRONTMATTER_BOUNDARY)
      ∧ c2Unmarshal c2Data = some c2Data) ∧
    (readFull (addFrontmatter c2Data) = (c2Data.filter (fun c => c ≠ '\n'), []) ∧
     c2Unmarshal (readFull (addFrontmatter c2Data)).1 = some c2Data) :=
  ⟨⟨by decide, by decide, by decide⟩,
    addFrontmatter_readFull_roundtrip c2Data c2Data c2Unmarshal (by decide) (by decide)
      (fun s => by simp [c2Unmarshal, List.filter_filter, Bool.and_self]) (by decide)⟩

/-- C1: the four-line document with boundary, `{"title":"A"}`, boundary,
`Body text` decodes to metadata exactly `{"title":"A"}` and body exactly
`Body text\n`: boundary lines are discarded, the line before the second
boundary goes to metadata, and the line after it goes to the body with
one trailing newline restored. -/
theorem readFull_boundary_example :
    readFull ("------------------\n\x7b\"title\":\"A\"\x7d\n------------------\nBody text\n".toList)
      = ("\x7b\"title\":\"A\"\x7d".toList, "Body text\n".toList) := by
  decide

/-- Split a byte sequence at every occurrence of `sep`, modelling Go's
`strings.Split` with a one-byte separator: the result is never empty. -/
def splitOnChar (sep : Char) : Bytes → List Bytes
  | [] => [[]]
  | c :: cs =>
    if c = sep then [] :: splitOnChar sep cs
    else
      match splitOnChar sep cs with
      | l :: ls => (c :: l) :: ls
      | [] => [[c]]

theorem splitOnChar_ne_nil (sep : Char) : ∀ xs : Bytes, splitOnChar sep xs ≠ []
  | [] => by simp [splitOnChar]
  | c :: cs => by
    unfold splitOnChar
    by_cases h : c = sep
    · simp [h]
    · simp only [h, if_false, ite_false]
      cases hs : splitOnChar sep cs <;> simp

theorem splitOnChar_headD (sep : Char) (xs : Bytes) :
    (splitOnChar sep xs).headD [] = xs.takeWhile (fun c => c ≠ sep) := by
  induction xs with
  | nil => simp [splitOnChar]
  | cons c cs ih =>
    by_cases hc : c = sep
    · simp [splitOnChar, hc, List.takeWhile_cons]
    · cases hs : splitOnChar sep cs with
      | nil => exact absurd hs (splitOnChar_ne_nil sep cs)
      | cons l0 ls0 =>
        rw [hs] at ih
        simp at ih
        simp [splitOnChar, hc, hs, List.takeWhile_cons, ih]

/-- Model of Go's `filepath.Split`: splits after the final slash, returning
the directory (with trailing slash) and the file name. -/
def filepathSplit (path : Bytes) : Bytes × Bytes :=
  (path.take (path.length - (path.reverse.takeWhile (fun c => c ≠ '/')).length),
   (path.reverse.takeWhile (fun c => c ≠ '/')).reverse)

/-- Model of `rootName`: the file name from `filepath.Split`, cut at the
first dot by taking index 0 of `strings.Split(filename, ".")` (total since
the split of a non-empty separator is never empty). -/
def rootName (path : Bytes) : Bytes :=
  (splitOnChar '.' (filepathSplit path).2).headD []

/-- Root name as the specification words it: the final path component with
everything from the first dot onward removed. -/
def rootNameSpec (path : Bytes) : Bytes :=
  ((path.reverse.takeWhile (fun c => c ≠ '/')).reverse).takeWhile (fun c => c ≠ '.')

/-- C4: root-name derivation: `rootName "bbc/cbc/abc.md" = "abc"` and
`rootName "abc.md.json" = "abc"`, and in general the root name is the final
path component with everything from the first dot onward removed, a pure
function of the path. -/
theorem rootName_spec :
    rootName ("bbc/cbc/abc.md".toList) = "abc".toList ∧
    rootName ("abc.md.json".toList) = "abc".toList ∧
    ∀ path : Bytes, rootName path = rootNameSpec path := by
  refine ⟨by decide, by decide, fun path => ?_⟩
  unfold rootName rootNameSpec filepathSplit
  dsimp only
  rw [splitOnChar_headD]

/-- Tag record: a slug and an optional layout name (empty when absent). -/
structure Tag where
  Slug : Bytes := []
  Layout : Bytes := []
deriving DecidableEq, Repr

/-- Post record; byte-valued fields default to Go zero values. -/
structure Post where
  Markdown : Bytes := []
  HTML : Bytes := []
  Layout : Bytes := []
  Title : Bytes := []
  Date : Bytes := []
  Description : Bytes := []
  Tags : List Bytes := []
  RootName : Bytes := []
deriving DecidableEq, Repr

/-- Synthetic post record built by `generate`'s tag-page loop:
`Post{Layout: "tagged", RootName: t.Slug}`; every other field keeps its Go
zero value, in particular the body fields are empty. -/
def tagPagePost (t : Tag) : Post :=
  { Layout := "tagged".toList, RootName := t.Slug }

/-- Synthetic post record built by the `main.go` variant's `format`:
`Post{Layout: t.Layout, RootName: t.Slug}`. -/
def tagPagePostFormat (t : Tag) : Post :=
  { Layout := t.Layout, RootName := t.Slug }

/-- Render calls issued by `generate`'s tag-page loop, one per discovered
tag in order: destination directory `docs/tagged/<slug>`, the synthetic
post, and the tag itself. -/
def renderTagPages (tags : List Tag) : List (Bytes × Post × Tag) :=
  tags.map (fun t => ("docs/tagged/".toList ++ t.Slug, tagPagePost t, t))

/-- Concrete tag for the C5 counterexample and witness: a tag whose own
layout name differs from the fixed name `tagged`. -/
def c5Tag : Tag :=
  { Slug := "go".toList, Layout := "custom".toList }

/-- C5 counterexample: in `generate` the synthetic tag-page post carries
the fixed layout name `tagged`, not the tag's own layout name: for the tag
with slug `go` and layout `custom` the synthetic post's layout differs
from the tag's layout. -/
theorem tagPagePost_layout_counterexample :
    (tagPagePost c5Tag).Layout ≠ c5Tag.Layout ∧ c5Tag ∈ [c5Tag] := by
  decide

/-- C5 (amended): for every tag in the discovered collection, `generate`
renders the tag page at `docs/tagged/<slug>` from a synthetic bodyless
post whose root name is the tag's slug and whose layout is the fixed name
`tagged`; the `main.go` variant's `format` instead uses the tag's own
layout name. -/
theorem tagPagePost_properties (tags : List Tag) (t : Tag) (h : t ∈ tags) :
    ("docs/tagged/".toList ++ t.Slug, tagPagePost t, t) ∈ renderTagPages tags ∧
    (tagPagePost t).RootName = t.Slug ∧
    (tagPagePost t).Layout = "tagged".toList ∧
    (tagPagePost t).Markdown = [] ∧
    (tagPagePost t).HTML = [] ∧
    (tagPagePostFormat t).RootName = t.Slug ∧
    (tagPagePostFormat t).Layout = t.Layout := by
  refine ⟨List.mem_map.mpr ⟨t, h, rfl⟩, rfl, rfl, rfl, rfl, rfl, rfl⟩

/-- Witness for C5 (amended) at the concrete tag `c5Tag`. -/
theorem tagPagePost_properties_witness :
    c5Tag ∈ [c5Tag] ∧
    (("docs/tagged/".toList ++ c5Tag.Slug, tagPagePost c5Tag, c5Tag) ∈ renderTagPages [c5Tag] ∧
     (tagPagePost c5Tag).RootName = c5Tag.Slug ∧
     (tagPagePost c5Tag).Layout = "tagged".toList ∧
     (tagPagePost c5Tag).Markdown = [] ∧
     (tagPagePost c5Tag).HTML = [] ∧
     (tagPagePostFormat c5Tag).RootName = c5Tag.Slug ∧
     (tagPagePostFormat c5Tag).Layout = c5Tag.Layout) :=
  ⟨by decide, tagPagePost_properties [c5Tag] c5Tag (by decide)⟩

/-- Boolean prefix test on lists (used to state what an error message
contains). -/
def isPrefB {α : Type} [DecidableEq α] : List α → List α → Bool
  | [], _ => true
  | _ :: _, [] => false
  | a :: as, b :: bs => a = b && isPrefB as bs

/-- Boolean substring test: `needle` occurs contiguously in the haystack. -/
def containsSub {α : Type} [DecidableEq α] (needle : List α) : List α → Bool
  | [] => isPrefB needle []
  | b :: rest => isPrefB needle (b :: rest) || containsSub needle rest

theorem isPrefB_self_append {α : Type} [DecidableEq α] :
    ∀ n b : List α, isPrefB n (n ++ b) = true
  | [], _ => rfl
  | a :: as, b => by simp [isPrefB, isPrefB_self_append as b]

theorem containsSub_middle {α : Type} [DecidableEq α] (n a b : List α) :
    containsSub n (a ++ (n ++ b)) = true := by
  induction a with
  | nil =>
    simp only [List.nil_append]
    cases hn : n ++ b with
    | nil => simp [containsSub, ← hn, isPrefB_self_append]
    | cons c rest => simp [containsSub, ← hn, isPrefB_self_append]
  | cons c a ih =>
    simp [containsSub, ih]

/-- Markdown AST node as far as the custom render hook observes it: a
fenced code block carries its literal text (`ast.CodeBlock.Literal`); any
other node kind is opaque (the gomarkdown parser and the default HTML
renderer are external libraries). -/
inductive MdNode where
  | codeBlock (literal : Bytes)
  | other (payload : Bytes)
deriving DecidableEq, Repr

/-- Model of `renderCodeBlock`: on entering a code block it writes the
wrapper tags and the block's literal text verbatim, then immediately
closes the tags; it writes nothing when not entering. -/
def renderCodeBlock (literal : Bytes) (entering : Bool) : Bytes :=
  if entering then
    "<div class=\x27highlight\x27><pre class=\x27highlight\x27><code>".toList
      ++ literal ++ "</code></pre></div>".toList
  else []

/-- Model of `myRenderHook`: handles exactly code-block nodes, returning
the bytes it writes and whether it handled the node. -/
def myRenderHook (node : MdNode) (entering : Bool) : Bytes × Bool :=
  match node with
  | .codeBlock lit => (renderCodeBlock lit entering, true)
  | .other _ => ([], false)

/-- Rendering of one node by the customized renderer: when the hook
reports the node handled, its output is used and the default renderer is
skipped; otherwise the external default rendering (`defaultRender`
parameter) applies. -/
def renderNode (defaultRender : MdNode → Bool → Bytes) (node : MdNode) (entering : Bool) : Bytes :=
  if (myRenderHook node entering).2 then (myRenderHook node entering).1
  else defaultRender node entering

/-- Model of `markdown.Render` walking the parsed document: each node is
entered and then exited once, concatenating the bytes written. -/
def markdownRender (defaultRender : MdNode → Bool → Bytes) (doc : List MdNode) : Bytes :=
  (doc.map (fun n => renderNode defaultRender n true ++ renderNode defaultRender n false)).flatten

/-- Model of `mdToHTML`: the gomarkdown parse is external (`parseMd`
parameter); the render side is the customized renderer with the hook. -/
def mdToHTML (parseMd : Bytes → List MdNode) (defaultRender : MdNode → Bool → Bytes)
    (md : Bytes) : Bytes :=
  markdownRender defaultRender (parseMd md)

/-- C7: whenever the parsed document contains a fenced code block with
literal text `hello\n` (as the gomarkdown parser produces for the body
consisting of a fenced code block containing `hello`), the rendered HTML
contains the exact substring
`<div class='highlight'><pre class='highlight'><code>hello\n</code></pre></div>`,
and the custom hook fully owns code-block output: every code-block node
renders through `renderCodeBlock`, never through the default renderer. -/
theorem mdToHTML_code_block (parseMd : Bytes → List MdNode)
    (defaultRender : MdNode → Bool → Bytes) (md : Bytes)
    (h : MdNode.codeBlock ("hello\n".toList) ∈ parseMd md) :
    containsSub
        ("<div class=\x27highlight\x27><pre class=\x27highlight\x27><code>hello\n</code></pre></div>".toList)
        (mdToHTML parseMd defaultRender md) = true ∧
    (∀ lit entering, renderNode defaultRender (MdNode.codeBlock lit) entering
        = renderCodeBlock lit entering) := by
  have hown : ∀ lit entering, renderNode defaultRender (MdNode.codeBlock lit) entering
      = renderCodeBlock lit entering := by
    intro lit entering
    simp [renderNode, myRenderHook]
  refine ⟨?_, hown⟩
  obtain ⟨l1, l2, hsplit⟩ := List.append_of_mem h
  have hexp : mdToHTML parseMd defaultRender md
      = (l1.map (fun n => renderNode defaultRender n true ++ renderNode defaultRender n false)).flatten
        ++ (("<div class=\x27highlight\x27><pre class=\x27highlight\x27><code>hello\n</code></pre></div>".toList)
          ++ (l2.map (fun n => renderNode defaultRender n true ++ renderNode defaultRender n false)).flatten) := by
    unfold mdToHTML markdownRender
    rw [hsplit, List.map_append, List.flatten_append, List.map_cons, List.flatten_cons]
    simp only [hown]
    rw [show renderCodeBlock ("hello\n".toList) false = ([] : Bytes) from by decide]
    rw [show renderCodeBlock ("hello\n".toList) true
        = ("<div class=\x27highlight\x27><pre class=\x27highlight\x27><code>hello\n</code></pre></div>".toList)
        from by decide]
    simp
  rw [hexp]
  exact containsSub_middle _ _ _

/-- Concrete parser stub for the C7 witness: the gomarkdown parse of the
fenced code block body yields one code-block node with literal
`hello\n`. -/
def c7Parse : Bytes → List MdNode :=
  fun _ => [MdNode.codeBlock ("hello\n".toList)]

/-- Concrete default renderer stub for the C7 witness. -/
def c7Default : MdNode → Bool → Bytes :=
  fun _ _ => []

/-- Witness for C7 at the concrete body containing one fenced code block. -/
theorem mdToHTML_code_block_witness :
    MdNode.codeBlock ("hello\n".toList) ∈ c7Parse ("```\nhello\n```".toList) ∧
    (containsSub
        ("<div class=\x27highlight\x27><pre class=\x27highlight\x27><code>hello\n</code></pre></div>".toList)
        (mdToHTML c7Parse c7Default ("```\nhello\n```".toList)) = true ∧
     ∀ lit entering, renderNode c7Default (MdNode.codeBlock lit) entering
        = renderCodeBlock lit entering) :=
  ⟨by decide, mdToHTML_code_block c7Parse c7Default ("```\nhello\n```".toList) (by decide)⟩

deriving instance DecidableEq for Except

/-- Site configuration; only the fields the verified fragments touch are
kept, with the two build-populated collections. -/
structure Config where
  Title : Bytes := []
  Description : Bytes := []
  URL : Bytes := []
  Tags : List Tag := []
  Posts : List Post := []
deriving DecidableEq, Repr

/-- Model of `parse`: the file content is passed directly (so `readFull`'s
open/read I/O failure cannot occur); JSON unmarshalling of the metadata
and the markdown transform are external (`unmarshal`, `mdRender`
parameters). The error string mirrors the source's wrapping, which does
not include the path. -/
def parse (unmarshal : Bytes → Except Bytes Post) (mdRender : Bytes → Bytes)
    (path : Bytes) (content : Bytes) : Except Bytes Post :=
  match unmarshal (readFull content).1 with
  | .error e => .error ("error unmarshaling metadata: ".toList ++ e)
  | .ok post =>
    .ok { post with
          Markdown := (readFull content).2,
          HTML := mdRender (readFull content).2,
          RootName := rootName path }

/-- Posts loop of `generate`: parse each discovered (path, content) pair
in order; the first failure aborts with the source's wrapping
(`error rendering posts: ...`) and discards every parsed post. -/
def listPosts (unmarshal : Bytes → Except Bytes Post) (mdRender : Bytes → Bytes) :
    List (Bytes × Bytes) → Except Bytes (List Post)
  | [] => .ok []
  | (path, content) :: rest =>
    match parse unmarshal mdRender path content with
    | .error e => .error ("error rendering posts: ".toList ++ e)
    | .ok post =>
      match listPosts unmarshal mdRender rest with
      | .error e => .error e
      | .ok posts => .ok (post :: posts)

/-- Fragment of `generate` around the posts loop: only on success are the
parsed posts assigned to `cfg.Posts`; on failure the error propagates and
the configuration is never updated. -/
def generatePosts (unmarshal : Bytes → Except Bytes Post) (mdRender : Bytes → Bytes)
    (cfg : Config) (files : List (Bytes × Bytes)) : Except Bytes Config :=
  match listPosts unmarshal mdRender files with
  | .error e => .error e
  | .ok posts => .ok { cfg with Posts := posts }

/-- Concrete decoder for the C6 counterexample: JSON unmarshalling fails
with a syntax-error message, which (as with encoding/json) does not name
any file. -/
def c6Unmarshal : Bytes → Except Bytes Post :=
  fun _ => .error ("unexpected end of JSON input".toList)

/-- Path of the malformed post file in the C6 counterexample. -/
def c6Path : Bytes := "markdown/posts/bad.md".toList

/-- Content of the malformed post file in the C6 counterexample: the
frontmatter is not valid JSON. -/
def c6Doc : Bytes := "------------------\n\x7b\n------------------\n".toList

/-- Error message `generate`'s posts loop produces for `c6Doc`. -/
def c6Msg : Bytes :=
  "error rendering posts: error unmarshaling metadata: unexpected end of JSON input".toList

/-- C6 counterexample: for a malformed post file, the posts loop does
return an error, but the error does not identify the offending path: the
message produced for `markdown/posts/bad.md` contains neither the path nor
even the file name (the path is only included for read failures). -/
theorem listPosts_error_no_path :
    listPosts c6Unmarshal (fun md => md) [(c6Path, c6Doc)] = .error c6Msg ∧
    containsSub c6Path c6Msg = false ∧
    containsSub ("bad.md".toList) c6Msg = false := by
  decide

/-- C6 (amended): fail-fast discovery: if any post file's metadata fails
to unmarshal, the posts loop returns an error (describing the JSON
failure but not naming the offending path) and produces no Post records:
the partial list is discarded and never assigned to the configuration. -/
theorem listPosts_fail_fast (unmarshal : Bytes → Except Bytes Post) (mdRender : Bytes → Bytes)
    (cfg : Config) (files : List (Bytes × Bytes)) (path content e : Bytes)
    (hmem : (path, content) ∈ files)
    (hbad : unmarshal (readFull content).1 = .error e) :
    (∃ msg, listPosts unmarshal mdRender files = .error msg) ∧
    (∃ msg, generatePosts unmarshal mdRender cfg files = .error msg) := by
  have hlist : ∃ msg, listPosts unmarshal mdRender files = .error msg := by
    induction files with
    | nil => simp at hmem
    | cons f rest ih =>
      rcases List.mem_cons.mp hmem with heq | hrest
      · refine ⟨"error rendering posts: ".toList ++ ("error unmarshaling metadata: ".toList ++ e), ?_⟩
        rw [← heq]
        simp [listPosts, parse, hbad]
      · obtain ⟨msg, hmsg⟩ := ih hrest
        obtain ⟨fp, fc⟩ := f
        cases hp : parse unmarshal mdRender fp fc with
        | error e2 => exact ⟨"error rendering posts: ".toList ++ e2, by simp [listPosts, hp]⟩
        | ok post => exact ⟨msg, by simp [listPosts, hp, hmsg]⟩
  obtain ⟨msg, hmsg⟩ := hlist
  exact ⟨⟨msg, hmsg⟩, ⟨msg, by simp [generatePosts, hmsg]⟩⟩

/-- Witness for C6 (amended) at the concrete malformed file. -/
theorem listPosts_fail_fast_witness :
    ((c6Path, c6Doc) ∈ [(c6Path, c6Doc)] ∧
      c6Unmarshal (readFull c6Doc).1 = .error ("unexpected end of JSON input".toList)) ∧
    ((∃ msg, listPosts c6Unmarshal (fun md => md) [(c6Path, c6Doc)] = .error msg) ∧
     (∃ msg, generatePosts c6Unmarshal (fun md => md) {} [(c6Path, c6Doc)] = .error msg)) :=
  ⟨⟨by decide, by decide⟩,
    listPosts_fail_fast c6Unmarshal (fun md => md) {} [(c6Path, c6Doc)] c6Path c6Doc
      ("unexpected end of JSON input".toList) (by decide) (by decide)⟩

/-- Model of `bytes.Buffer` as used by `readFull`. -/
structure Buffer where
  data : Bytes
deriving DecidableEq, Repr

/-- Model of `bytes.Buffer.Write`, which by its documented contract always
returns a nil error (the buffer grows as needed; on overflow it panics
rather than returning an error). -/
def bufferWrite (b : Buffer) (d : Bytes) : Except Bytes Buffer :=
  .ok ⟨b.data ++ d⟩

/-- One iteration of `readFull`'s scan loop with the source's error
plumbing kept explicit: each buffer write is checked, and a failing write
would abort the scan with the source's wrapped message. -/
def readLineE (st : Nat × Buffer × Buffer) (b : Bytes) : Except Bytes (Nat × Buffer × Buffer) :=
  if b = FRONTMATTER_BOUNDARY ∧ st.1 < 2 then .ok (st.1 + 1, st.2.1, st.2.2)
  else if st.1 < 2 then
    match bufferWrite st.2.1 b with
    | .error e => .error ("error reading frontmatter: ".toList ++ e)
    | .ok fm2 => .ok (st.1, fm2, st.2.2)
  else
    match bufferWrite st.2.2 b with
    | .error e => .error ("error reading content: ".toList ++ e)
    | .ok c2 =>
      match bufferWrite c2 ['\n'] with
      | .error e => .error ("error reading content: ".toList ++ e)
      | .ok c3 => .ok (st.1, st.2.1, c3)

/-- Model of `readFull` with its fallible scan loop: the only failure
sources on given content are the buffer writes. -/
def readFullE (content : Bytes) : Except Bytes (Bytes × Bytes) :=
  match (scanLines content).foldlM readLineE (0, ⟨[]⟩, ⟨[]⟩) with
  | .error e => .error e
  | .ok st => .ok (st.2.1.data, st.2.2.data)

theorem foldlM_readLineE (ls : List Bytes) :
    ∀ (count : Nat) (fm ct : Bytes),
    ls.foldlM readLineE (count, ⟨fm⟩, ⟨ct⟩)
      = .ok ((ls.foldl readLine ⟨count, fm, ct⟩).boundaryCount,
             ⟨(ls.foldl readLine ⟨count, fm, ct⟩).bufFrontMatter⟩,
             ⟨(ls.foldl readLine ⟨count, fm, ct⟩).bufContent⟩) := by
  induction ls with
  | nil => intro count fm ct; rfl
  | cons l ls ih =>
    intro count fm ct
    rw [List.foldlM_cons, List.foldl_cons]
    by_cases h1 : l = FRONTMATTER_BOUNDARY ∧ count < 2
    · have hE : readLineE (count, ⟨fm⟩, ⟨ct⟩) l = .ok (count + 1, ⟨fm⟩, ⟨ct⟩) := by
        simp [readLineE, h1.1, h1.2]
      have hL : readLine ⟨count, fm, ct⟩ l = ⟨count + 1, fm, ct⟩ := by
        simp [readLine, h1.1, h1.2]
      rw [hE, hL]
      simpa using ih (count + 1) fm ct
    · by_cases h2 : count < 2
      · have hl : ¬ l = FRONTMATTER_BOUNDARY := fun he => h1 ⟨he, h2⟩
        have hE : readLineE (count, ⟨fm⟩, ⟨ct⟩) l = .ok (count, ⟨fm ++ l⟩, ⟨ct⟩) := by
          simp [readLineE, hl, h2, bufferWrite]
        have hL : readLine ⟨count, fm, ct⟩ l = ⟨count, fm ++ l, ct⟩ := by
          simp [readLine, hl, h2]
        rw [hE, hL]
        simpa using ih count (fm ++ l) ct
      · have hE : readLineE (count, ⟨fm⟩, ⟨ct⟩) l = .ok (count, ⟨fm⟩, ⟨ct ++ l ++ ['\n']⟩) := by
          simp [readLineE, h2, bufferWrite, List.append_assoc]
        have hL : readLine ⟨count, fm, ct⟩ l = ⟨count, fm, ct ++ l ++ ['\n']⟩ := by
          simp [readLine, h2]
        rw [hE, hL]
        simpa [List.append_assoc] using ih count fm (ct ++ l ++ ['\n'])

/-- C9: decode totality: the scan of `readFull` succeeds on every finite
input byte sequence, returning exactly the (metadata, body) pair of the
total scan (its in-loop error branches are dead, since `bytes.Buffer.Write`
never fails); and `parse` on given content fails exactly when JSON
unmarshalling of the extracted metadata fails: no structure of the input
makes the codec itself fail. -/
theorem readFullE_total :
    (∀ content : Bytes, readFullE content = .ok (readFull content)) ∧
    (∀ (unmarshal : Bytes → Except Bytes Post) (mdRender : Bytes → Bytes) (path content : Bytes),
      (∃ e, parse unmarshal mdRender path content = .error e)
        ↔ (∃ e, unmarshal (readFull content).1 = .error e)) := by
  constructor
  · intro content
    unfold readFullE readFull readFullLines
    rw [foldlM_readLineE (scanLines content) 0 [] []]
  · intro unmarshal mdRender path content
    cases hu : unmarshal (readFull content).1 with
    | error e =>
      constructor
      · intro _; exact ⟨e, rfl⟩
      · intro _
        exact ⟨"error unmarshaling metadata: ".toList ++ e, by simp [parse, hu]⟩
    | ok post =>
      constructor
      · rintro ⟨e2, he2⟩
        simp [parse, hu] at he2
      · rintro ⟨e2, he2⟩
        simp at he2

/-- Nodes of the modelled output file tree. -/
inductive FsNode where
  | dir : FsNode
  | file : Bytes → FsNode
deriving DecidableEq, Repr

/-- Paths are lists of components; a file system maps each path to the
node there, if any. -/
abbrev FS := List String → Option FsNode

/-- Name of the output directory, `SITE_DIR` in the source. -/
def SITE_DIR : String := "docs"

/-- Model of `os.RemoveAll p`: removes the node at `p` and everything
under it. -/
def removeAll (p : List String) (fs : FS) : FS :=
  fun q => if isPrefB p q then none else fs q

/-- Model of `os.MkdirAll p`: creates a directory at every missing prefix
of `p`; existing nodes are left in place (the `os.MkdirAll` failure when
an ancestor is an existing file does not arise in `reset`, which only
creates paths inside the subtree it has just removed). -/
def mkdirAll (p : List String) (fs : FS) : FS :=
  fun q =>
    if q ≠ [] ∧ isPrefB q p = true then
      match fs q with
      | none => some .dir
      | some n => some n
    else fs q

/-- Write one file, creating its parent directories, as `os.CopyFS` does
per entry of the copied bundle. -/
def writeFileAt (p : List String) (content : Bytes) (fs : FS) : FS :=
  fun q => if q = p then some (.file content) else mkdirAll p.dropLast fs q

/-- Model of `os.CopyFS dst src` for an in-memory bundle of
(relative path, content) pairs (`reset` copies into a freshly emptied
tree, so the copy never hits an existing destination file). -/
def copyFS (dst : List String) (src : List (List String × Bytes)) (fs : FS) : FS :=
  src.foldl (fun acc e => writeFileAt (dst ++ e.1) e.2 acc) fs

/-- Model of `reset`: delete the output tree, recreate `docs/blog` and
`docs/tagged`, copy the embedded asset bundle into the output root. -/
def reset (assets : List (List String × Bytes)) (fs : FS) : FS :=
  copyFS [SITE_DIR] assets
    (mkdirAll [SITE_DIR, "tagged"] (mkdirAll [SITE_DIR, "blog"] (removeAll [SITE_DIR] fs)))

theorem prefix_of_cons_head {α : Type} [DecidableEq α] (q : List α) (a : α) (tl : List α)
    (hq : q ≠ []) (h : isPrefB q (a :: tl) = true) : isPrefB [a] q = true := by
  cases q with
  | nil => exact absurd rfl hq
  | cons x xs =>
    have hx : x = a := by
      simp [isPrefB] at h
      exact h.1
    subst hx
    simp [isPrefB]

theorem mkdirAll_nil (fs : FS) (q : List String) : mkdirAll [] fs q = fs q := by
  unfold mkdirAll
  have hc : ¬ (q ≠ [] ∧ isPrefB q ([] : List String) = true) := by
    rintro ⟨hq, hpre⟩
    cases q with
    | nil => exact hq rfl
    | cons x xs => simp [isPrefB] at hpre
  rw [if_neg hc]

theorem mkdirAll_outside (tail : List String) (fs : FS) (q : List String)
    (h : isPrefB [SITE_DIR] q = false) :
    mkdirAll (SITE_DIR :: tail) fs q = fs q := by
  unfold mkdirAll
  have hc : ¬ (q ≠ [] ∧ isPrefB q (SITE_DIR :: tail) = true) := by
    rintro ⟨hq, hpre⟩
    have hp := prefix_of_cons_head q SITE_DIR tail hq hpre
    simp [hp] at h
  rw [if_neg hc]

theorem writeFileAt_outside (rel : List String) (c : Bytes) (fs : FS) (q : List String)
    (h : isPrefB [SITE_DIR] q = false) :
    writeFileAt (SITE_DIR :: rel) c fs q = fs q := by
  unfold writeFileAt
  have hq : ¬ q = SITE_DIR :: rel := by
    intro he
    rw [he] at h
    simp [isPrefB] at h
  rw [if_neg hq]
  cases rel with
  | nil => exact mkdirAll_nil fs q
  | cons r rs => exact mkdirAll_outside ((r :: rs).dropLast) fs q h

theorem copyFS_outside (src : List (List String × Bytes)) :
    ∀ (g : FS) (q : List String), isPrefB [SITE_DIR] q = false →
    copyFS [SITE_DIR] src g q = g q := by
  induction src with
  | nil => intro g q _; rfl
  | cons e src ih =>
    intro g q h
    have hstep : copyFS [SITE_DIR] (e :: src) g
        = copyFS [SITE_DIR] src (writeFileAt ([SITE_DIR] ++ e.1) e.2 g) := rfl
    rw [hstep, ih _ q h]
    exact writeFileAt_outside e.1 e.2 g q h

theorem reset_outside (assets : List (List String × Bytes)) (fs : FS) (q : List String)
    (h : isPrefB [SITE_DIR] q = false) :
    reset assets fs q = fs q := by
  unfold reset
  rw [copyFS_outside assets _ q h]
  rw [mkdirAll_outside ["tagged"] _ q h]
  rw [mkdirAll_outside ["blog"] _ q h]
  simp [removeAll, h]

theorem mkdirAll_congr (p : List String) (f g : FS) (q : List String) (h : f q = g q) :
    mkdirAll p f q = mkdirAll p g q := by
  unfold mkdirAll
  rw [h]

theorem writeFileAt_congr (p : List String) (c : Bytes) (f g : FS) (q : List String)
    (h : f q = g q) : writeFileAt p c f q = writeFileAt p c g q := by
  unfold writeFileAt
  by_cases hq : q = p
  · rw [if_pos hq, if_pos hq]
  · rw [if_neg hq, if_neg hq]
    exact mkdirAll_congr p.dropLast f g q h

theorem copyFS_congr (dst : List String) (src : List (List String × Bytes)) :
    ∀ (f g : FS) (q : List String), f q = g q → copyFS dst src f q = copyFS dst src g q := by
  induction src with
  | nil => intro f g q h; exact h
  | cons e src ih =>
    intro f g q h
    exact ih _ _ q (writeFileAt_congr (dst ++ e.1) e.2 f g q h)

theorem reset_inside (assets : List (List String × Bytes)) (f g : FS) (q : List String)
    (h : isPrefB [SITE_DIR] q = true) :
    reset assets f q = reset assets g q := by
  unfold reset
  apply copyFS_congr
  apply mkdirAll_congr
  apply mkdirAll_congr
  show removeAll [SITE_DIR] f q = removeAll [SITE_DIR] g q
  simp [removeAll, h]

/-- C8: idempotent reset: running the reset stage twice leaves the output
tree exactly as one run leaves it, and the state of the output subtree
after a reset is independent of the prior file-system state: no file from
a previous run survives. -/
theorem reset_idempotent :
    (∀ (assets : List (List String × Bytes)) (fs : FS),
      reset assets (reset assets fs) = reset assets fs) ∧
    (∀ (assets : List (List String × Bytes)) (f g : FS) (q : List String),
      isPrefB [SITE_DIR] q = true → reset assets f q = reset assets g q) := by
  constructor
  · intro assets fs
    funext q
    by_cases h : isPrefB [SITE_DIR] q = true
    · exact reset_inside assets (reset assets fs) fs q h
    · have hf : isPrefB [SITE_DIR] q = false := by simpa using h
      rw [reset_outside assets (reset assets fs) q hf]
  · exact fun assets f g q h => reset_inside assets f g q h

/-- Witness for C8's prior-state independence at a concrete path and two
concrete prior states. -/
theorem reset_idempotent_witness :
    isPrefB [SITE_DIR] [SITE_DIR, "blog"] = true ∧
    reset ([] : List (List String × Bytes)) (fun _ => none) [SITE_DIR, "blog"]
      = reset ([] : List (List String × Bytes)) (fun _ => some FsNode.dir) [SITE_DIR, "blog"] :=
  ⟨by decide, reset_idempotent.2 [] (fun _ => none) (fun _ => some FsNode.dir)
    [SITE_DIR, "blog"] (by decide)⟩

end EzSsg
